import Mathlib

/-!
Shallow embedding of `backend/app/core/taskmanager/finetune_task_manager.py`
(class `FinetuneTaskManager`) and proofs about its scheduling state machine.

Modelling conventions:
* `uuid.UUID` user ids, parameter ids and `str` task ids are modelled as `Nat`;
  `uuid.uuid4()` freshness is modelled by passing the generated id as an
  argument together with a freshness hypothesis where it matters.
* `datetime.utcnow()` is modelled by passing the current time as a `Nat`
  argument.
* The Python dicts `all_tasks` / `running_tasks` / `user_task_counts` and the
  deque `task_queue` are modelled as: a list of task records (unique ids),
  a list of running task ids, a total function `UserId → Int` (Python's
  `.get(user_id, 0)` reads default 0; `d[u] -= 1` is only ever executed for a
  user that already has a task, hence a present key), and a FIFO list of ids.
* Results of `await` calls into the `finetune_service` backend are passed in
  as `Except String _` arguments: `.error e` models the awaited call raising
  an exception with message `e`.
* Each `async` method runs under `self._schedule_lock`; the embedding treats
  each locked section as one atomic step on the manager state.
-/

/-- `TaskStatus` enum of the source. -/
inductive TaskStatus where
  | pending
  | queued
  | running
  | completed
  | failed
  | cancelled
deriving DecidableEq, Repr

/-- A status is terminal when it is `completed`, `failed` or `cancelled`. -/
def TaskStatus.isTerminal : TaskStatus → Bool
  | .completed => true
  | .failed => true
  | .cancelled => true
  | _ => false

/-- Dataclass `FinetuneTask` of the source. -/
structure FinetuneTask where
  task_id : Nat
  user_id : Nat
  parameters_id : Nat
  status : TaskStatus
  created_at : Nat
  started_at : Option Nat := none
  finished_at : Option Nat := none
  job_id : Option Nat := none
  error_message : Option String := none
deriving DecidableEq, Repr

/-- The mutable fields of `FinetuneTaskManager`. -/
structure ManagerState where
  max_concurrent_tasks : Nat
  max_tasks_per_user : Nat
  task_queue : List Nat
  running_tasks : List Nat
  all_tasks : List FinetuneTask
  user_task_counts : Nat → Int

/-- The result of `finetune_service.get_finetune_status`: the truthiness of
the `succeeded` and `failed` entries of the returned dict. -/
structure JobStatus where
  succeeded : Bool
  failed : Bool
deriving DecidableEq, Repr

/-- `self.all_tasks.get(task_id)`. -/
def ManagerState.findTask (s : ManagerState) (task_id : Nat) : Option FinetuneTask :=
  s.all_tasks.find? (fun t => t.task_id = task_id)

/-- In-place mutation of the task object with id `task_id` inside the
registry (Python mutates the shared object referenced by the dict). -/
def updateTask (l : List FinetuneTask) (task_id : Nat)
    (f : FinetuneTask → FinetuneTask) : List FinetuneTask :=
  l.map (fun t => if t.task_id = task_id then f t else t)

/-- `self.user_task_counts[user_id] += delta` (with `.get(user_id, 0)` default). -/
def bumpCount (counts : Nat → Int) (user_id : Nat) (delta : Int) : Nat → Int :=
  fun u => if u = user_id then counts u + delta else counts u

/-- `FinetuneTaskManager.__init__`: empty queue, empty running set, empty
registry, no counts. -/
def initState (max_concurrent_tasks max_tasks_per_user : Nat) : ManagerState :=
  { max_concurrent_tasks := max_concurrent_tasks
    max_tasks_per_user := max_tasks_per_user
    task_queue := []
    running_tasks := []
    all_tasks := []
    user_task_counts := fun _ => 0 }

/-- `FinetuneTaskManager.submit_task`.  `task_id` is the id produced by
`uuid.uuid4()` and `now` is `datetime.utcnow()`.  Raising `ValueError` is
modelled as `.error`; the method mutates nothing before raising. -/
def submit_task (s : ManagerState) (user_id parameters_id task_id now : Nat) :
    Except String (Nat × ManagerState) :=
  if s.user_task_counts user_id ≥ (s.max_tasks_per_user : Int) then
    .error "user task count exceeds limit"
  else
    let task : FinetuneTask :=
      { task_id := task_id
        user_id := user_id
        parameters_id := parameters_id
        status := .pending
        created_at := now }
    .ok (task_id,
      { s with
        all_tasks := s.all_tasks ++ [task]
        task_queue := s.task_queue ++ [task_id]
        user_task_counts := bumpCount s.user_task_counts user_id 1 })

/-- The field assignments `task.status = CANCELLED; task.finished_at = now`. -/
def markCancelled (now : Nat) (t : FinetuneTask) : FinetuneTask :=
  { t with status := .cancelled, finished_at := some now }

/-- The field assignments of `_start_task` on success:
`task.job_id = result["job_id"]; task.status = RUNNING; task.started_at = now`. -/
def markRunning (job_id now : Nat) (t : FinetuneTask) : FinetuneTask :=
  { t with job_id := some job_id, status := .running, started_at := some now }

/-- The field assignments `task.status = FAILED; task.error_message = msg`
together with the `finished_at` stamp. -/
def markFailed (msg : String) (now : Nat) (t : FinetuneTask) : FinetuneTask :=
  { t with status := .failed, error_message := some msg, finished_at := some now }

/-- The field assignments `task.status = COMPLETED` together with the
`finished_at` stamp of the cleanup phase. -/
def markCompleted (now : Nat) (t : FinetuneTask) : FinetuneTask :=
  { t with status := .completed, finished_at := some now }

/-- `FinetuneTaskManager.cancel_task`.  `stopResult` is the outcome of the
awaited `finetune_service.stop_finetune` call (`.error e` = it raised; the
method catches that exception, logs it and falls through to `return False`).
The outer `Except` is the `ValueError` raised for an unknown or foreign task. -/
def cancel_task (s : ManagerState) (user_id task_id : Nat)
    (stopResult : Except String Bool) (now : Nat) :
    Except String (Bool × ManagerState) :=
  match s.findTask task_id with
  | none => .error "task does not exist or no access"
  | some task =>
    if task.user_id ≠ user_id then
      .error "task does not exist or no access"
    else if task.status = .pending ∨ task.status = .queued then
      -- remove from the wait queue, mark cancelled; the counter is NOT touched
      .ok (true,
        { s with
          task_queue := s.task_queue.erase task_id
          all_tasks := updateTask s.all_tasks task_id (markCancelled now) })
    else if task.status = .running ∧ task.job_id.isSome then
      match stopResult with
      | .ok true =>
        .ok (true,
          { s with
            all_tasks := updateTask s.all_tasks task_id (markCancelled now)
            running_tasks := s.running_tasks.erase task_id
            user_task_counts := bumpCount s.user_task_counts user_id (-1) })
      | .ok false => .ok (false, s)
      | .error _ => .ok (false, s)
    else
      .ok (false, s)

/-- `FinetuneTaskManager.get_task_status` result: the `status_info` dict plus
a flag recording whether the backend was queried for live status. -/
structure StatusInfo where
  task_id : Nat
  status : TaskStatus
  created_at : Nat
  started_at : Option Nat
  finished_at : Option Nat
  error_message : Option String
  job_status : Option JobStatus
deriving DecidableEq, Repr

/-- `FinetuneTaskManager.get_task_status`.  `queryResult` is the outcome of
the awaited `finetune_service.get_finetune_status` call, consulted only when
the task is running with a job id; a raising query is caught and the
`job_status` enrichment omitted.  The method performs no state mutation, so
it returns only the snapshot and a flag recording whether the backend was
called. -/
def get_task_status (s : ManagerState) (user_id task_id : Nat)
    (queryResult : Except String JobStatus) :
    Except String (StatusInfo × Bool) :=
  match s.findTask task_id with
  | none => .error "task does not exist or no access"
  | some task =>
    if task.user_id ≠ user_id then
      .error "task does not exist or no access"
    else
      let base : StatusInfo :=
        { task_id := task.task_id
          status := task.status
          created_at := task.created_at
          started_at := task.started_at
          finished_at := task.finished_at
          error_message := task.error_message
          job_status := none }
      if task.status = .running ∧ task.job_id.isSome then
        match queryResult with
        | .ok js => .ok ({ base with job_status := some js }, true)
        | .error _ => .ok (base, true)
      else
        .ok (base, false)

/-- `FinetuneTaskManager._start_task` on the task just popped from the
queue.  `startResult` is the outcome of `finetune_service.start_finetune`
(`.ok job_id` or `.error message`). -/
def start_task (s : ManagerState) (task : FinetuneTask)
    (startResult : Except String Nat) (now : Nat) : ManagerState :=
  match startResult with
  | .ok job_id =>
    { s with
      all_tasks := updateTask s.all_tasks task.task_id (markRunning job_id now)
      running_tasks := s.running_tasks ++ [task.task_id] }
  | .error e =>
    { s with
      all_tasks := updateTask s.all_tasks task.task_id (markFailed e now)
      user_task_counts := bumpCount s.user_task_counts task.user_id (-1) }

/-- One iteration of the promotion loop in `FinetuneTaskManager._task_scheduler`:
guarded by `len(running_tasks) < max_concurrent_tasks` and a non-empty queue,
pop the head and `_start_task` it. -/
def scheduler_promote (s : ManagerState) (task : FinetuneTask)
    (startResult : Except String Nat) (now : Nat) : ManagerState :=
  start_task { s with task_queue := s.task_queue.tail } task startResult now

/-- `FinetuneTaskManager._update_running_tasks`, restricted to one running
task `task_id`: query the backend; on `succeeded` mark completed, on `failed`
mark failed with the generic message, otherwise leave untouched; a raising
query is caught and leaves the task untouched.  A task marked terminal is
popped from the running set, has `finished_at` stamped and the owner's
counter decremented (the cleanup phase of the source). -/
def poll_task (s : ManagerState) (task_id : Nat)
    (queryResult : Except String JobStatus) (now : Nat) : ManagerState :=
  match s.findTask task_id with
  | none => s
  | some task =>
    match queryResult with
    | .error _ => s
    | .ok st =>
      if st.succeeded then
        { s with
          all_tasks := updateTask s.all_tasks task_id (markCompleted now)
          running_tasks := s.running_tasks.erase task_id
          user_task_counts := bumpCount s.user_task_counts task.user_id (-1) }
      else if st.failed then
        { s with
          all_tasks := updateTask s.all_tasks task_id
            (markFailed "task execution failed" now)
          running_tasks := s.running_tasks.erase task_id
          user_task_counts := bumpCount s.user_task_counts task.user_id (-1) }
      else
        s

/-- Number of tasks of `user_id` whose status is in {pending, queued,
running} (the non-terminal statuses). -/
def nonTerminalCount (s : ManagerState) (user_id : Nat) : Nat :=
  (s.all_tasks.filter (fun t => t.user_id = user_id && !t.status.isTerminal)).length

/-- Atomic steps of the task manager: each constructor is one locked section
of the source acting on the shared state, with the results of backend calls
and the generated id / clock as oracle inputs. -/
inductive Step : ManagerState → ManagerState → Prop where
  | submit (s s' : ManagerState) (user_id parameters_id task_id now r : Nat)
      (hfresh : s.findTask task_id = none)
      (h : submit_task s user_id parameters_id task_id now = .ok (r, s')) :
      Step s s'
  | cancel (s s' : ManagerState) (user_id task_id : Nat)
      (stopResult : Except String Bool) (now : Nat) (b : Bool)
      (h : cancel_task s user_id task_id stopResult now = .ok (b, s')) :
      Step s s'
  | promote (s : ManagerState) (task_id : Nat) (rest : List Nat)
      (task : FinetuneTask) (startResult : Except String Nat) (now : Nat)
      (hcap : s.running_tasks.length < s.max_concurrent_tasks)
      (hq : s.task_queue = task_id :: rest)
      (ht : s.findTask task_id = some task) :
      Step s (scheduler_promote s task startResult now)
  | poll (s : ManagerState) (task_id : Nat)
      (queryResult : Except String JobStatus) (now : Nat)
      (hmem : task_id ∈ s.running_tasks) :
      Step s (poll_task s task_id queryResult now)

/-- States reachable from a freshly constructed manager with the given
limits. -/
inductive Reachable (maxC maxU : Nat) : ManagerState → Prop where
  | init : Reachable maxC maxU (initState maxC maxU)
  | step {s s' : ManagerState} : Reachable maxC maxU s → Step s s' →
      Reachable maxC maxU s'

/-- The inductive invariant of the manager state. -/
structure ManagerInv (maxC maxU : Nat) (s : ManagerState) : Prop where
  maxC_eq : s.max_concurrent_tasks = maxC
  maxU_eq : s.max_tasks_per_user = maxU
  ids_nodup : (s.all_tasks.map (fun t => t.task_id)).Nodup
  queue_nodup : s.task_queue.Nodup
  running_nodup : s.running_tasks.Nodup
  queue_pending : ∀ task_id ∈ s.task_queue,
    ∃ t, s.findTask task_id = some t ∧ t.status = .pending
  running_running : ∀ task_id ∈ s.running_tasks,
    ∃ t, s.findTask task_id = some t ∧ t.status = .running
  count_ge : ∀ u, (nonTerminalCount s u : Int) ≤ s.user_task_counts u
  count_le : ∀ u, s.user_task_counts u ≤ (maxU : Int)
  running_le : s.running_tasks.length ≤ maxC

/-- The manager state after one submission (user 0, parameter set 7, generated
task id 0, clock 0) on a freshly constructed manager with limits 5 and 3. -/
def wSubmitState : ManagerState :=
  { max_concurrent_tasks := 5
    max_tasks_per_user := 3
    task_queue := [0]
    running_tasks := []
    all_tasks := [{ task_id := 0, user_id := 0, parameters_id := 7,
                    status := .pending, created_at := 0 }]
    user_task_counts := bumpCount (fun _ => 0) 0 1 }

/-- The task record created by that submission. -/
def pendingTask : FinetuneTask :=
  { task_id := 0, user_id := 0, parameters_id := 7,
    status := .pending, created_at := 0 }

/-- A running task with an assigned backend job id. -/
def runningTask : FinetuneTask :=
  { task_id := 0, user_id := 0, parameters_id := 7, status := .running,
    created_at := 0, started_at := some 1, job_id := some 42 }

/-- A manager state holding one running task of user 0. -/
def wRunState : ManagerState :=
  { max_concurrent_tasks := 5
    max_tasks_per_user := 3
    task_queue := []
    running_tasks := [0]
    all_tasks := [runningTask]
    user_task_counts := fun u => if u = 0 then 1 else 0 }

/-- A task of user 0 that already reached a terminal status. -/
def doneTask : FinetuneTask :=
  { task_id := 1, user_id := 0, parameters_id := 7, status := .completed,
    created_at := 0, started_at := some 1, finished_at := some 2, job_id := some 42 }

/-- A manager state holding one terminal task of user 0. -/
def wDoneState : ManagerState :=
  { max_concurrent_tasks := 5
    max_tasks_per_user := 3
    task_queue := []
    running_tasks := []
    all_tasks := [doneTask]
    user_task_counts := fun _ => 0 }

/-- The `FinetuneTask` record that `submit_task` constructs at submission. -/
def newTask (user_id parameters_id task_id now : Nat) : FinetuneTask :=
  { task_id := task_id
    user_id := user_id
    parameters_id := parameters_id
    status := .pending
    created_at := now }

/-- Submit one task for user 0 on a fresh manager (limits 5 and 3), then have
the owner cancel it while it is still Pending. -/
def leakRun : Except String (Bool × ManagerState) :=
  match submit_task (initState 5 3) 0 7 0 0 with
  | .ok (tid, s1) => cancel_task s1 0 tid (.ok true) 1
  | .error e => .error e

/-- A manager state in which user 0 already holds three non-terminal tasks,
i.e. sits exactly at the default per-user limit. -/
def atQuotaState : ManagerState :=
  { max_concurrent_tasks := 5
    max_tasks_per_user := 3
    task_queue := [0, 1, 2]
    running_tasks := []
    all_tasks :=
      [{ task_id := 0, user_id := 0, parameters_id := 7,
         status := .pending, created_at := 0 },
       { task_id := 1, user_id := 0, parameters_id := 7,
         status := .pending, created_at := 0 },
       { task_id := 2, user_id := 0, parameters_id := 7,
         status := .pending, created_at := 0 }]
    user_task_counts := fun u => if u = 0 then 3 else 0 }


/-! ### Helper lemmas about the registry operations -/

theorem updateTask_id_map (l : List FinetuneTask) (tid : Nat)
    (f : FinetuneTask → FinetuneTask) (hf : ∀ t, (f t).task_id = t.task_id) :
    (updateTask l tid f).map (fun t => t.task_id) = l.map (fun t => t.task_id) := by
  induction l with
  | nil => rfl
  | cons a l ih =>
    simp only [updateTask, List.map_cons] at ih ⊢
    by_cases ha : a.task_id = tid
    · simp [ha, hf, ih]
    · simp [ha, ih]

theorem updateTask_eq_self (l : List FinetuneTask) (tid : Nat)
    (f : FinetuneTask → FinetuneTask) (h : ∀ t ∈ l, t.task_id ≠ tid) :
    updateTask l tid f = l := by
  induction l with
  | nil => rfl
  | cons a l ih =>
    simp only [updateTask, List.map_cons]
    rw [if_neg (h a (List.mem_cons_self a l))]
    have := ih (fun t ht => h t (List.mem_cons_of_mem a ht))
    simpa [updateTask] using this

theorem find?_updateTask_self (l : List FinetuneTask) (tid : Nat)
    (f : FinetuneTask → FinetuneTask) (task : FinetuneTask)
    (hf : ∀ t, (f t).task_id = t.task_id)
    (h : l.find? (fun t => t.task_id = tid) = some task) :
    (updateTask l tid f).find? (fun t => t.task_id = tid) = some (f task) := by
  induction l with
  | nil => simp at h
  | cons a l ih =>
    by_cases ha : a.task_id = tid
    · rw [List.find?_cons_of_pos _ (by simpa using ha)] at h
      cases h
      simp only [updateTask, List.map_cons, if_pos ha]
      exact List.find?_cons_of_pos _ (by simp [hf, ha])
    · rw [List.find?_cons_of_neg _ (by simpa using ha)] at h
      simp only [updateTask, List.map_cons, if_neg ha]
      rw [List.find?_cons_of_neg _ (by simpa using ha)]
      exact ih h

theorem find?_updateTask_ne (l : List FinetuneTask) (tid tid' : Nat)
    (f : FinetuneTask → FinetuneTask) (hf : ∀ t, (f t).task_id = t.task_id)
    (hne : tid' ≠ tid) :
    (updateTask l tid f).find? (fun t => t.task_id = tid') =
    l.find? (fun t => t.task_id = tid') := by
  induction l with
  | nil => rfl
  | cons a l ih =>
    simp only [updateTask, List.map_cons]
    by_cases ha : a.task_id = tid
    · have hfa : (f a).task_id = a.task_id := hf a
      by_cases ha' : a.task_id = tid'
      · exact absurd (ha'.symm.trans ha) hne
      · rw [if_pos ha, List.find?_cons_of_neg _ (by simp [hfa, ha']),
          List.find?_cons_of_neg _ (by simpa using ha')]
        simpa [updateTask] using ih
    · rw [if_neg ha]
      by_cases ha' : a.task_id = tid'
      · rw [List.find?_cons_of_pos _ (by simpa using ha'),
          List.find?_cons_of_pos _ (by simpa using ha')]
      · rw [List.find?_cons_of_neg _ (by simpa using ha'),
          List.find?_cons_of_neg _ (by simpa using ha')]
        simpa [updateTask] using ih

theorem length_filter_updateTask_le (l : List FinetuneTask) (tid : Nat)
    (f : FinetuneTask → FinetuneTask) (p : FinetuneTask → Bool)
    (himp : ∀ t, p (f t) = true → p t = true) :
    ((updateTask l tid f).filter p).length ≤ (l.filter p).length := by
  induction l with
  | nil => simp [updateTask]
  | cons a l ih =>
    simp only [updateTask, List.map_cons, List.filter_cons] at ih ⊢
    by_cases ha : a.task_id = tid
    · rw [if_pos ha]
      cases hfa : p (f a) with
      | true =>
        rw [himp a hfa]
        simpa [hfa] using ih
      | false =>
        cases hpa : p a with
        | true => simp [hfa, hpa]; omega
        | false => simpa [hfa, hpa] using ih
    · rw [if_neg ha]
      cases hpa : p a with
      | true => simpa [hpa] using ih
      | false => simpa [hpa] using ih

theorem length_filter_updateTask_congr (l : List FinetuneTask) (tid : Nat)
    (f : FinetuneTask → FinetuneTask) (p : FinetuneTask → Bool)
    (h : ∀ t ∈ l, t.task_id = tid → p (f t) = p t) :
    ((updateTask l tid f).filter p).length = (l.filter p).length := by
  induction l with
  | nil => rfl
  | cons a l ih =>
    have ih' := ih (fun t ht => h t (List.mem_cons_of_mem a ht))
    simp only [updateTask, List.map_cons, List.filter_cons] at ih' ⊢
    by_cases ha : a.task_id = tid
    · rw [if_pos ha, h a (List.mem_cons_self a l) ha]
      cases hpa : p a with
      | true => simpa [hpa] using ih'
      | false => simpa [hpa] using ih'
    · rw [if_neg ha]
      cases hpa : p a with
      | true => simpa [hpa] using ih'
      | false => simpa [hpa] using ih'

theorem length_filter_updateTask_flip (l : List FinetuneTask) (tid : Nat)
    (f : FinetuneTask → FinetuneTask) (p : FinetuneTask → Bool)
    (task : FinetuneTask)
    (hfind : l.find? (fun t => t.task_id = tid) = some task)
    (hnodup : (l.map (fun t => t.task_id)).Nodup)
    (hp : p task = true) (hpf : p (f task) = false) :
    ((updateTask l tid f).filter p).length + 1 = (l.filter p).length := by
  induction l with
  | nil => simp at hfind
  | cons a l ih =>
    simp only [List.map_cons, List.nodup_cons] at hnodup
    by_cases ha : a.task_id = tid
    · rw [List.find?_cons_of_pos _ (by simpa using ha)] at hfind
      cases hfind
      have hrest : updateTask l tid f = l := by
        apply updateTask_eq_self
        intro t ht heq
        apply hnodup.1
        have hmm : t.task_id ∈ l.map (fun x => x.task_id) :=
          List.mem_map_of_mem (fun x => x.task_id) ht
        rwa [heq, ← ha] at hmm
      simp only [updateTask, List.map_cons, if_pos ha, List.filter_cons, hpf, hp,
        cond_false, cond_true]
      rw [show (List.map (fun t => if t.task_id = tid then f t else t) l) =
        updateTask l tid f from rfl, hrest]
      simp
    · rw [List.find?_cons_of_neg _ (by simpa using ha)] at hfind
      have := ih hfind hnodup.2
      simp only [updateTask, List.map_cons, if_neg ha, List.filter_cons] at this ⊢
      cases hpa : p a with
      | true => simpa [hpa] using this
      | false => simpa [hpa] using this

theorem mem_eq_of_findTask (l : List FinetuneTask) (tid : Nat)
    (task t : FinetuneTask)
    (hnodup : (l.map (fun x => x.task_id)).Nodup)
    (hfind : l.find? (fun x => x.task_id = tid) = some task)
    (hmem : t ∈ l) (hid : t.task_id = tid) : t = task := by
  induction l with
  | nil => simp at hmem
  | cons a l ih =>
    simp only [List.map_cons, List.nodup_cons] at hnodup
    by_cases ha : a.task_id = tid
    · rw [List.find?_cons_of_pos _ (by simpa using ha)] at hfind
      cases hfind
      rcases List.mem_cons.mp hmem with rfl | hmem'
      · rfl
      · exfalso
        apply hnodup.1
        have hmm : t.task_id ∈ l.map (fun x => x.task_id) :=
          List.mem_map_of_mem (fun x => x.task_id) hmem'
        rwa [hid, ← ha] at hmm
    · rw [List.find?_cons_of_neg _ (by simpa using ha)] at hfind
      rcases List.mem_cons.mp hmem with rfl | hmem'
      · exact absurd hid ha
      · exact ih hnodup.2 hfind hmem'

theorem find?_append_some {α : Type} (l l' : List α) (p : α → Bool) (a : α)
    (h : l.find? p = some a) : (l ++ l').find? p = some a := by
  rw [List.find?_append, h]; rfl

theorem find?_append_none {α : Type} (l l' : List α) (p : α → Bool)
    (h : l.find? p = none) : (l ++ l').find? p = l'.find? p := by
  rw [List.find?_append, h]; rfl

theorem nodup_concat {α : Type} (l : List α) (a : α) (h : l.Nodup) (ha : a ∉ l) :
    (l ++ [a]).Nodup := by
  rw [List.nodup_append]
  exact ⟨h, List.nodup_singleton a, by
    intro x hx hx'
    rw [List.mem_singleton] at hx'
    exact ha (hx' ▸ hx)⟩

theorem findTask_id (s : ManagerState) (tid : Nat) (t : FinetuneTask)
    (h : s.findTask tid = some t) : t.task_id = tid := by
  have := List.find?_some h
  simpa using this

theorem findTask_mem (s : ManagerState) (tid : Nat) (t : FinetuneTask)
    (h : s.findTask tid = some t) : t ∈ s.all_tasks :=
  List.mem_of_find?_eq_some h

theorem manager_inv_submit {maxC maxU : Nat} {s s' : ManagerState}
    (hinv : ManagerInv maxC maxU s)
    (u p tid now r : Nat)
    (hfresh : s.findTask tid = none)
    (h : submit_task s u p tid now = .ok (r, s')) :
    ManagerInv maxC maxU s' := by
  obtain ⟨hC, hU, hids, hqnd, hrnd, hqp, hrr, hcge, hcle, hrle⟩ := hinv
  unfold submit_task at h
  split at h
  · exact absurd h (by simp)
  · rename_i hlt
    rw [not_le] at hlt
    injection h with h
    injection h with h1 h2
    subst h2
    have hfresh' : s.all_tasks.find? (fun t => t.task_id = tid) = none := hfresh
    have hniq : tid ∉ s.all_tasks.map (fun t => t.task_id) := by
      intro hmem
      obtain ⟨t, htmem, hteq⟩ := List.mem_map.mp hmem
      have := List.find?_eq_none.mp hfresh' t htmem
      simp [hteq] at this
    have hnq : tid ∉ s.task_queue := by
      intro hmem
      obtain ⟨t, hft, _⟩ := hqp tid hmem
      rw [hfresh] at hft
      exact Option.noConfusion hft
    refine ⟨hC, hU, ?_, ?_, hrnd, ?_, ?_, ?_, ?_, hrle⟩
    · simpa [List.map_append] using nodup_concat _ _ hids hniq
    · exact nodup_concat _ _ hqnd hnq
    · intro tid' hmem
      rcases List.mem_append.mp hmem with hold | hnew
      · obtain ⟨t, hft, hst⟩ := hqp tid' hold
        exact ⟨t, find?_append_some _ _ _ _ hft, hst⟩
      · rw [List.mem_singleton] at hnew
        refine ⟨{ task_id := tid, user_id := u, parameters_id := p,
                  status := .pending, created_at := now }, ?_, rfl⟩
        show (s.all_tasks ++
          [({ task_id := tid, user_id := u, parameters_id := p,
              status := TaskStatus.pending, created_at := now } : FinetuneTask)]).find?
          (fun t : FinetuneTask => t.task_id = tid') = _
        rw [hnew, find?_append_none _ _ _ hfresh']
        exact List.find?_cons_of_pos _ (by simp)
    · intro tid' hmem
      obtain ⟨t, hft, hst⟩ := hrr tid' hmem
      exact ⟨t, find?_append_some _ _ _ _ hft, hst⟩
    · intro u'
      have hsplit : nonTerminalCount
          { s with
            all_tasks := s.all_tasks ++
              [{ task_id := tid, user_id := u, parameters_id := p,
                 status := .pending, created_at := now }]
            task_queue := s.task_queue ++ [tid]
            user_task_counts := bumpCount s.user_task_counts u 1 } u' =
          nonTerminalCount s u' + (if u = u' then 1 else 0) := by
        simp only [nonTerminalCount, List.filter_append, List.length_append]
        congr 1
        by_cases hu : u = u'
        · simp [hu, TaskStatus.isTerminal]
        · simp [hu, TaskStatus.isTerminal]
      rw [hsplit]
      have := hcge u'
      simp only [bumpCount]
      by_cases hu : u' = u
      · subst hu
        simp only [if_pos rfl, if_pos rfl]
        push_cast
        omega
      · rw [if_neg hu, if_neg (fun hh => hu hh.symm)]
        simpa using this
    · intro u'
      simp only [bumpCount]
      by_cases hu : u' = u
      · subst hu
        rw [if_pos rfl]
        have := hU ▸ hlt
        omega
      · rw [if_neg hu]
        exact hcle u'


theorem markCancelled_task_id (now : Nat) (t : FinetuneTask) :
    (markCancelled now t).task_id = t.task_id := rfl

theorem markRunning_task_id (job_id now : Nat) (t : FinetuneTask) :
    (markRunning job_id now t).task_id = t.task_id := rfl

theorem markFailed_task_id (msg : String) (now : Nat) (t : FinetuneTask) :
    (markFailed msg now t).task_id = t.task_id := rfl

theorem markCompleted_task_id (now : Nat) (t : FinetuneTask) :
    (markCompleted now t).task_id = t.task_id := rfl

theorem manager_inv_cancel {maxC maxU : Nat} {s s' : ManagerState}
    (hinv : ManagerInv maxC maxU s)
    (u tid : Nat) (stopResult : Except String Bool) (now : Nat) (b : Bool)
    (h : cancel_task s u tid stopResult now = .ok (b, s')) :
    ManagerInv maxC maxU s' := by
  obtain ⟨hC, hU, hids, hqnd, hrnd, hqp, hrr, hcge, hcle, hrle⟩ := hinv
  unfold cancel_task at h
  cases hft : s.findTask tid with
  | none =>
    rw [hft] at h
    exact absurd h (by simp)
  | some task =>
    rw [hft] at h
    simp only [] at h
    have htid : task.task_id = tid := findTask_id s tid task hft
    split at h
    · exact absurd h (by simp)
    · rename_i huser
      rw [ne_eq, not_not] at huser
      split at h
      · -- pending / queued branch
        rename_i hpq
        injection h with h
        injection h with h1 h2
        subst h2
        refine ⟨hC, hU, ?_, ?_, hrnd, ?_, ?_, ?_, hcle, hrle⟩
        · show ((updateTask s.all_tasks tid (markCancelled now)).map
            (fun t => t.task_id)).Nodup
          rw [updateTask_id_map _ _ _ (markCancelled_task_id now)]
          exact hids
        · exact hqnd.erase tid
        · intro tid' hmem
          rw [hqnd.mem_erase_iff] at hmem
          obtain ⟨t, hft', hst⟩ := hqp tid' hmem.2
          refine ⟨t, ?_, hst⟩
          show (updateTask s.all_tasks tid (markCancelled now)).find?
            (fun t => t.task_id = tid') = _
          rw [find?_updateTask_ne _ _ _ _ (markCancelled_task_id now) hmem.1]
          exact hft'
        · intro tid' hmem
          obtain ⟨t, hft', hst⟩ := hrr tid' hmem
          have hne : tid' ≠ tid := by
            intro hh
            subst hh
            rw [hft'] at hft
            injection hft with hh'
            subst hh'
            rcases hpq with hp | hq
            · rw [hst] at hp; exact TaskStatus.noConfusion hp
            · rw [hst] at hq; exact TaskStatus.noConfusion hq
          refine ⟨t, ?_, hst⟩
          show (updateTask s.all_tasks tid (markCancelled now)).find?
            (fun t => t.task_id = tid') = _
          rw [find?_updateTask_ne _ _ _ _ (markCancelled_task_id now) hne]
          exact hft'
        · intro u'
          have hle' : nonTerminalCount
              { s with
                task_queue := s.task_queue.erase tid
                all_tasks := updateTask s.all_tasks tid (markCancelled now) } u' ≤
              nonTerminalCount s u' := by
            apply length_filter_updateTask_le
            intro t hh
            simp [markCancelled, TaskStatus.isTerminal] at hh
          exact le_trans (by exact_mod_cast hle') (hcge u')
      · split at h
        · -- running branch
          rename_i hpq hrun
          cases stopResult with
          | ok bb =>
            cases bb with
            | true =>
              injection h with h
              injection h with h1 h2
              subst h2
              refine ⟨hC, hU, ?_, hqnd, ?_, ?_, ?_, ?_, ?_, ?_⟩
              · show ((updateTask s.all_tasks tid (markCancelled now)).map
                  (fun t => t.task_id)).Nodup
                rw [updateTask_id_map _ _ _ (markCancelled_task_id now)]
                exact hids
              · exact hrnd.erase tid
              · intro tid' hmem
                obtain ⟨t, hft', hst⟩ := hqp tid' hmem
                have hne : tid' ≠ tid := by
                  intro hh
                  subst hh
                  rw [hft'] at hft
                  injection hft with hh'
                  subst hh'
                  rw [hst] at hrun
                  exact TaskStatus.noConfusion hrun.1
                refine ⟨t, ?_, hst⟩
                show (updateTask s.all_tasks tid (markCancelled now)).find?
                  (fun t => t.task_id = tid') = _
                rw [find?_updateTask_ne _ _ _ _ (markCancelled_task_id now) hne]
                exact hft'
              · intro tid' hmem
                rw [hrnd.mem_erase_iff] at hmem
                obtain ⟨t, hft', hst⟩ := hrr tid' hmem.2
                refine ⟨t, ?_, hst⟩
                show (updateTask s.all_tasks tid (markCancelled now)).find?
                  (fun t => t.task_id = tid') = _
                rw [find?_updateTask_ne _ _ _ _ (markCancelled_task_id now) hmem.1]
                exact hft'
              · intro u'
                by_cases hu : u' = u
                · subst hu
                  have hflip :
                      ((updateTask s.all_tasks tid (markCancelled now)).filter
                        (fun t => t.user_id = u' && !t.status.isTerminal)).length + 1 =
                      (s.all_tasks.filter
                        (fun t => t.user_id = u' && !t.status.isTerminal)).length := by
                    apply length_filter_updateTask_flip _ _ _ _ task hft hids
                    · simp [huser, hrun.1, TaskStatus.isTerminal]
                    · simp [markCancelled, TaskStatus.isTerminal]
                  have hg := hcge u'
                  simp only [nonTerminalCount] at hg ⊢
                  simp only [bumpCount, if_pos rfl]
                  omega
                · have hcongr :
                      ((updateTask s.all_tasks tid (markCancelled now)).filter
                        (fun t => t.user_id = u' && !t.status.isTerminal)).length =
                      (s.all_tasks.filter
                        (fun t => t.user_id = u' && !t.status.isTerminal)).length := by
                    apply length_filter_updateTask_congr
                    intro t hmem hid
                    have ht : t = task :=
                      mem_eq_of_findTask s.all_tasks tid task t hids hft hmem hid
                    subst ht
                    have hne' : (decide (t.user_id = u') : Bool) = false := by
                      rw [huser]
                      exact decide_eq_false (fun hh => hu hh.symm)
                    simp [markCancelled, hne']
                  have hg := hcge u'
                  simp only [nonTerminalCount] at hg ⊢
                  simp only [bumpCount, if_neg hu]
                  omega
              · intro u'
                simp only [bumpCount]
                by_cases hu : u' = u
                · subst hu
                  rw [if_pos rfl]
                  have := hcle u'
                  omega
                · rw [if_neg hu]
                  exact hcle u'
              · exact le_trans
                  (List.Sublist.length_le (List.erase_sublist tid s.running_tasks)) hrle
            | false =>
              injection h with h
              injection h with h1 h2
              subst h2
              exact ⟨hC, hU, hids, hqnd, hrnd, hqp, hrr, hcge, hcle, hrle⟩
          | error e =>
            injection h with h
            injection h with h1 h2
            subst h2
            exact ⟨hC, hU, hids, hqnd, hrnd, hqp, hrr, hcge, hcle, hrle⟩
        · -- terminal task: return False, no change
          injection h with h
          injection h with h1 h2
          subst h2
          exact ⟨hC, hU, hids, hqnd, hrnd, hqp, hrr, hcge, hcle, hrle⟩

theorem manager_inv_promote {maxC maxU : Nat} {s : ManagerState}
    (hinv : ManagerInv maxC maxU s)
    (tid : Nat) (rest : List Nat) (task : FinetuneTask)
    (startResult : Except String Nat) (now : Nat)
    (hcap : s.running_tasks.length < s.max_concurrent_tasks)
    (hq : s.task_queue = tid :: rest)
    (ht : s.findTask tid = some task) :
    ManagerInv maxC maxU (scheduler_promote s task startResult now) := by
  obtain ⟨hC, hU, hids, hqnd, hrnd, hqp, hrr, hcge, hcle, hrle⟩ := hinv
  have htid : task.task_id = tid := findTask_id s tid task ht
  have hstat : task.status = .pending := by
    obtain ⟨t, hft', hst⟩ := hqp tid (by rw [hq]; exact List.mem_cons_self tid rest)
    rw [ht] at hft'
    injection hft' with hh
    subst hh
    exact hst
  have hqnd' : tid ∉ rest ∧ rest.Nodup := by
    rw [hq] at hqnd
    exact List.nodup_cons.mp hqnd
  have hnotrun : tid ∉ s.running_tasks := by
    intro hmem
    obtain ⟨t, hft', hst⟩ := hrr tid hmem
    rw [ht] at hft'
    injection hft' with hh
    subst hh
    rw [hstat] at hst
    exact TaskStatus.noConfusion hst
  unfold scheduler_promote start_task
  cases startResult with
  | ok job =>
    refine ⟨hC, hU, ?_, ?_, ?_, ?_, ?_, ?_, hcle, ?_⟩
    · show ((updateTask s.all_tasks task.task_id (markRunning job now)).map
        (fun t => t.task_id)).Nodup
      rw [updateTask_id_map _ _ _ (markRunning_task_id job now)]
      exact hids
    · show (s.task_queue.tail).Nodup
      rw [hq]
      exact hqnd'.2
    · exact nodup_concat _ _ hrnd (htid ▸ hnotrun)
    · intro tid' hmem
      have hmem' : tid' ∈ rest := by
        rw [show ({ s with
          task_queue := s.task_queue.tail
          all_tasks := updateTask s.all_tasks task.task_id (markRunning job now)
          running_tasks := s.running_tasks ++ [task.task_id] } : ManagerState).task_queue =
            s.task_queue.tail from rfl, hq] at hmem
        exact hmem
      have hne : tid' ≠ tid := fun hh => hqnd'.1 (hh ▸ hmem')
      obtain ⟨t, hft', hst⟩ := hqp tid' (by rw [hq]; exact List.mem_cons_of_mem tid hmem')
      refine ⟨t, ?_, hst⟩
      show (updateTask s.all_tasks task.task_id (markRunning job now)).find?
        (fun t => t.task_id = tid') = _
      rw [htid, find?_updateTask_ne _ _ _ _ (markRunning_task_id job now) hne]
      exact hft'
    · intro tid' hmem
      rcases List.mem_append.mp hmem with hold | hnew
      · have hne : tid' ≠ tid := fun hh => hnotrun (hh ▸ hold)
        obtain ⟨t, hft', hst⟩ := hrr tid' hold
        refine ⟨t, ?_, hst⟩
        show (updateTask s.all_tasks task.task_id (markRunning job now)).find?
          (fun t => t.task_id = tid') = _
        rw [htid, find?_updateTask_ne _ _ _ _ (markRunning_task_id job now) hne]
        exact hft'
      · rw [List.mem_singleton] at hnew
        refine ⟨markRunning job now task, ?_, rfl⟩
        show (updateTask s.all_tasks task.task_id (markRunning job now)).find?
          (fun t => t.task_id = tid') = _
        rw [hnew, htid]
        exact find?_updateTask_self _ _ _ _ (markRunning_task_id job now) ht
    · intro u'
      have hcongr :
          ((updateTask s.all_tasks task.task_id (markRunning job now)).filter
            (fun t => t.user_id = u' && !t.status.isTerminal)).length =
          (s.all_tasks.filter
            (fun t => t.user_id = u' && !t.status.isTerminal)).length := by
        apply length_filter_updateTask_congr
        intro t hmem hid
        have ht' : t = task :=
          mem_eq_of_findTask s.all_tasks tid task t hids ht hmem (htid ▸ hid)
        subst ht'
        simp [markRunning, TaskStatus.isTerminal, hstat]
      have hg := hcge u'
      simp only [nonTerminalCount] at hg ⊢
      omega
    · show (s.running_tasks ++ [task.task_id]).length ≤ maxC
      rw [List.length_append, List.length_singleton]
      rw [hC] at hcap
      omega
  | error e =>
    refine ⟨hC, hU, ?_, ?_, hrnd, ?_, ?_, ?_, ?_, hrle⟩
    · show ((updateTask s.all_tasks task.task_id (markFailed e now)).map
        (fun t => t.task_id)).Nodup
      rw [updateTask_id_map _ _ _ (markFailed_task_id e now)]
      exact hids
    · show (s.task_queue.tail).Nodup
      rw [hq]
      exact hqnd'.2
    · intro tid' hmem
      have hmem' : tid' ∈ rest := by
        rw [show ({ s with
          task_queue := s.task_queue.tail
          all_tasks := updateTask s.all_tasks task.task_id (markFailed e now)
          user_task_counts := bumpCount s.user_task_counts task.user_id (-1) } :
            ManagerState).task_queue = s.task_queue.tail from rfl, hq] at hmem
        exact hmem
      have hne : tid' ≠ tid := fun hh => hqnd'.1 (hh ▸ hmem')
      obtain ⟨t, hft', hst⟩ := hqp tid' (by rw [hq]; exact List.mem_cons_of_mem tid hmem')
      refine ⟨t, ?_, hst⟩
      show (updateTask s.all_tasks task.task_id (markFailed e now)).find?
        (fun t => t.task_id = tid') = _
      rw [htid, find?_updateTask_ne _ _ _ _ (markFailed_task_id e now) hne]
      exact hft'
    · intro tid' hmem
      have hne : tid' ≠ tid := fun hh => hnotrun (hh ▸ hmem)
      obtain ⟨t, hft', hst⟩ := hrr tid' hmem
      refine ⟨t, ?_, hst⟩
      show (updateTask s.all_tasks task.task_id (markFailed e now)).find?
        (fun t => t.task_id = tid') = _
      rw [htid, find?_updateTask_ne _ _ _ _ (markFailed_task_id e now) hne]
      exact hft'
    · intro u'
      by_cases hu : u' = task.user_id
      · have hflip :
            ((updateTask s.all_tasks task.task_id (markFailed e now)).filter
              (fun t => t.user_id = u' && !t.status.isTerminal)).length + 1 =
            (s.all_tasks.filter
              (fun t => t.user_id = u' && !t.status.isTerminal)).length := by
          apply length_filter_updateTask_flip _ _ _ _ task (htid ▸ ht) hids
          · simp [hu, hstat, TaskStatus.isTerminal]
          · simp [markFailed, TaskStatus.isTerminal]
        have hg := hcge u'
        simp only [nonTerminalCount] at hg ⊢
        simp only [bumpCount, if_pos hu]
        omega
      · have hcongr :
            ((updateTask s.all_tasks task.task_id (markFailed e now)).filter
              (fun t => t.user_id = u' && !t.status.isTerminal)).length =
            (s.all_tasks.filter
              (fun t => t.user_id = u' && !t.status.isTerminal)).length := by
          apply length_filter_updateTask_congr
          intro t hmem hid
          have ht' : t = task :=
            mem_eq_of_findTask s.all_tasks tid task t hids ht hmem (htid ▸ hid)
          subst ht'
          have hne' : (decide (t.user_id = u') : Bool) = false :=
            decide_eq_false (fun hh => hu hh.symm)
          simp [markFailed, hne']
        have hg := hcge u'
        simp only [nonTerminalCount] at hg ⊢
        simp only [bumpCount, if_neg hu]
        omega
    · intro u'
      simp only [bumpCount]
      by_cases hu : u' = task.user_id
      · rw [if_pos hu]
        have := hcle u'
        omega
      · rw [if_neg hu]
        exact hcle u'

theorem manager_inv_poll {maxC maxU : Nat} {s : ManagerState}
    (hinv : ManagerInv maxC maxU s)
    (tid : Nat) (queryResult : Except String JobStatus) (now : Nat)
    (hmem : tid ∈ s.running_tasks) :
    ManagerInv maxC maxU (poll_task s tid queryResult now) := by
  obtain ⟨hC, hU, hids, hqnd, hrnd, hqp, hrr, hcge, hcle, hrle⟩ := hinv
  obtain ⟨task, hft, hstat⟩ := hrr tid hmem
  have htid : task.task_id = tid := findTask_id s tid task hft
  unfold poll_task
  rw [hft]
  cases queryResult with
  | error e => exact ⟨hC, hU, hids, hqnd, hrnd, hqp, hrr, hcge, hcle, hrle⟩
  | ok st =>
    obtain ⟨su, fa⟩ := st
    have hqp' : ∀ mk : FinetuneTask → FinetuneTask,
        (∀ t, (mk t).task_id = t.task_id) →
        ∀ tid' ∈ s.task_queue,
        ∃ t, (updateTask s.all_tasks tid mk).find? (fun x => x.task_id = tid') = some t ∧
          t.status = .pending := by
      intro mk hmk tid' hq'
      obtain ⟨t, hft', hst⟩ := hqp tid' hq'
      have hne : tid' ≠ tid := by
        intro hh
        subst hh
        rw [hft'] at hft
        injection hft with hh'
        subst hh'
        rw [hstat] at hst
        exact TaskStatus.noConfusion hst
      refine ⟨t, ?_, hst⟩
      rw [find?_updateTask_ne _ _ _ _ hmk hne]
      exact hft'
    have hrr' : ∀ mk : FinetuneTask → FinetuneTask,
        (∀ t, (mk t).task_id = t.task_id) →
        ∀ tid' ∈ s.running_tasks.erase tid,
        ∃ t, (updateTask s.all_tasks tid mk).find? (fun x => x.task_id = tid') = some t ∧
          t.status = .running := by
      intro mk hmk tid' hmem'
      rw [hrnd.mem_erase_iff] at hmem'
      obtain ⟨t, hft', hst⟩ := hrr tid' hmem'.2
      refine ⟨t, ?_, hst⟩
      rw [find?_updateTask_ne _ _ _ _ hmk hmem'.1]
      exact hft'
    have hcge' : ∀ mk : FinetuneTask → FinetuneTask,
        (∀ t, (mk t).task_id = t.task_id) →
        (∀ t, (mk t).user_id = t.user_id) →
        (∀ t, (mk t).status.isTerminal = true) →
        ∀ u', (((updateTask s.all_tasks tid mk).filter
            (fun t => t.user_id = u' && !t.status.isTerminal)).length : Int) ≤
          bumpCount s.user_task_counts task.user_id (-1) u' := by
      intro mk hmk hmku hmkt u'
      by_cases hu : u' = task.user_id
      · have hflip :
            ((updateTask s.all_tasks tid mk).filter
              (fun t => t.user_id = u' && !t.status.isTerminal)).length + 1 =
            (s.all_tasks.filter
              (fun t => t.user_id = u' && !t.status.isTerminal)).length := by
          apply length_filter_updateTask_flip _ _ _ _ task hft hids
          · simp [hu, hstat, TaskStatus.isTerminal]
          · simp [hmku, hmkt]
        have hg := hcge u'
        simp only [nonTerminalCount] at hg
        simp only [bumpCount, if_pos hu]
        omega
      · have hcongr :
            ((updateTask s.all_tasks tid mk).filter
              (fun t => t.user_id = u' && !t.status.isTerminal)).length =
            (s.all_tasks.filter
              (fun t => t.user_id = u' && !t.status.isTerminal)).length := by
          apply length_filter_updateTask_congr
          intro t hmem' hid
          have ht' : t = task :=
            mem_eq_of_findTask s.all_tasks tid task t hids hft hmem' hid
          subst ht'
          have hne' : (decide (t.user_id = u') : Bool) = false :=
            decide_eq_false (fun hh => hu hh.symm)
          simp [hmku t ▸ hne', hne']
        have hg := hcge u'
        simp only [nonTerminalCount] at hg
        simp only [bumpCount, if_neg hu]
        omega
    have hcle' : ∀ u', bumpCount s.user_task_counts task.user_id (-1) u' ≤ (maxU : Int) := by
      intro u'
      simp only [bumpCount]
      by_cases hu : u' = task.user_id
      · rw [if_pos hu]
        have := hcle u'
        omega
      · rw [if_neg hu]
        exact hcle u'
    have hrle' : (s.running_tasks.erase tid).length ≤ maxC :=
      le_trans (List.Sublist.length_le (List.erase_sublist tid s.running_tasks)) hrle
    cases su with
    | true =>
      show ManagerInv maxC maxU
        { s with
          all_tasks := updateTask s.all_tasks tid (markCompleted now)
          running_tasks := s.running_tasks.erase tid
          user_task_counts := bumpCount s.user_task_counts task.user_id (-1) }
      refine ⟨hC, hU, ?_, hqnd, hrnd.erase tid, ?_, ?_, ?_, hcle', hrle'⟩
      · show ((updateTask s.all_tasks tid (markCompleted now)).map
          (fun t => t.task_id)).Nodup
        rw [updateTask_id_map _ _ _ (markCompleted_task_id now)]
        exact hids
      · exact hqp' (markCompleted now) (markCompleted_task_id now)
      · exact hrr' (markCompleted now) (markCompleted_task_id now)
      · exact hcge' (markCompleted now) (markCompleted_task_id now)
          (fun t => rfl) (fun t => rfl)
    | false =>
      cases fa with
      | true =>
        show ManagerInv maxC maxU
          { s with
            all_tasks := updateTask s.all_tasks tid
              (markFailed "task execution failed" now)
            running_tasks := s.running_tasks.erase tid
            user_task_counts := bumpCount s.user_task_counts task.user_id (-1) }
        refine ⟨hC, hU, ?_, hqnd, hrnd.erase tid, ?_, ?_, ?_, hcle', hrle'⟩
        · show ((updateTask s.all_tasks tid
            (markFailed "task execution failed" now)).map (fun t => t.task_id)).Nodup
          rw [updateTask_id_map _ _ _ (markFailed_task_id "task execution failed" now)]
          exact hids
        · exact hqp' _ (markFailed_task_id "task execution failed" now)
        · exact hrr' _ (markFailed_task_id "task execution failed" now)
        · exact hcge' _ (markFailed_task_id "task execution failed" now)
            (fun t => rfl) (fun t => rfl)
      | false =>
        exact ⟨hC, hU, hids, hqnd, hrnd, hqp, hrr, hcge, hcle, hrle⟩

theorem manager_inv_step {maxC maxU : Nat} {s s' : ManagerState}
    (hinv : ManagerInv maxC maxU s) (hstep : Step s s') : ManagerInv maxC maxU s' := by
  cases hstep with
  | submit _ u p tid now r hfresh h =>
    exact manager_inv_submit hinv u p tid now r hfresh h
  | cancel _ u tid stopR now b h =>
    exact manager_inv_cancel hinv u tid stopR now b h
  | promote tid rest task startR now hcap hq ht =>
    exact manager_inv_promote hinv tid rest task startR now hcap hq ht
  | poll tid qr now hmem =>
    exact manager_inv_poll hinv tid qr now hmem

theorem manager_inv_reachable {maxC maxU : Nat} {s : ManagerState}
    (h : Reachable maxC maxU s) : ManagerInv maxC maxU s := by
  induction h with
  | init =>
    refine ⟨rfl, rfl, List.nodup_nil, List.nodup_nil, List.nodup_nil,
      ?_, ?_, ?_, ?_, ?_⟩
    · intro tid hmem
      exact absurd hmem (List.not_mem_nil tid)
    · intro tid hmem
      exact absurd hmem (List.not_mem_nil tid)
    · intro u
      simp [nonTerminalCount, initState]
    · intro u
      simp [initState]
    · simp [initState]
  | step _ hs ih =>
    exact manager_inv_step ih hs

/-! ### Claim theorems -/

/-- C3: at every reachable state of the task manager, the number of a user's
tasks with status in {Pending, Queued, Running} never exceeds the configured
per-user limit (`max_tasks_per_user`, default 3): `submit_task` rejects any
submission once the per-user counter reaches the limit, and the counter
always bounds the number of non-terminal tasks from above. -/
theorem user_nonterminal_never_exceeds_limit {maxC maxU : Nat} {s : ManagerState}
    (h : Reachable maxC maxU s) (u : Nat) :
    nonTerminalCount s u ≤ s.max_tasks_per_user := by
  have hinv := manager_inv_reachable h
  have h1 := hinv.count_ge u
  have h2 := hinv.count_le u
  rw [hinv.maxU_eq]
  omega

/-- Witness for C3: the bound evaluated at a concrete reachable state holding
one pending task. -/
theorem user_nonterminal_never_exceeds_limit_witness :
    nonTerminalCount wSubmitState 0 ≤ wSubmitState.max_tasks_per_user :=
  user_nonterminal_never_exceeds_limit
    (Reachable.step Reachable.init
      (Step.submit (initState 5 3) wSubmitState 0 7 0 0 0 rfl rfl)) 0

/-- C4: at every reachable state, the size of the running set never exceeds
the configured global concurrency limit (`max_concurrent_tasks`, default 5):
the scheduler promotes only while the running-set size is strictly below the
limit and each successful start adds exactly one entry. -/
theorem running_never_exceeds_global_limit {maxC maxU : Nat} {s : ManagerState}
    (h : Reachable maxC maxU s) :
    s.running_tasks.length ≤ s.max_concurrent_tasks := by
  have hinv := manager_inv_reachable h
  rw [hinv.maxC_eq]
  exact hinv.running_le

/-- Witness for C4: the bound evaluated at a concrete reachable state reached
by a submission followed by a successful promotion. -/
theorem running_never_exceeds_global_limit_witness :
    (scheduler_promote wSubmitState pendingTask (.ok 42) 1).running_tasks.length ≤
    (scheduler_promote wSubmitState pendingTask (.ok 42) 1).max_concurrent_tasks :=
  running_never_exceeds_global_limit
    (Reachable.step
      (Reachable.step Reachable.init
        (Step.submit (initState 5 3) wSubmitState 0 7 0 0 0 rfl rfl))
      (Step.promote wSubmitState 0 [] pendingTask (.ok 42) 1 (by decide) rfl rfl))

/-- C8: during the polling phase, a backend status query that raises leaves
the polled task and the whole manager state untouched (the task stays
Running, nothing is removed from the running set, no counter changes), and a
report that is neither `succeeded` nor `failed` likewise changes nothing:
only an unambiguous succeeded or failed report transitions the task. -/
theorem poll_query_error_no_change (s : ManagerState) (tid : Nat)
    (e : String) (now : Nat) :
    poll_task s tid (.error e) now = s ∧
    poll_task s tid (.ok { succeeded := false, failed := false }) now = s := by
  constructor
  · unfold poll_task
    cases hft : s.findTask tid
    · rfl
    · rfl
  · unfold poll_task
    cases hft : s.findTask tid
    · rfl
    · rfl

/-- C5: for a Running task (with its assigned backend job id), `cancel_task`
transitions it to Cancelled, removes it from the running set and decrements
the owner's counter exactly when the backend stop call reports success; when
the stop call reports failure (returns False), the state is returned
unchanged — same task status, running set and counter — and the call reports
failure (False) to the caller. -/
theorem cancel_running_iff_stop_success (s : ManagerState) (u tid j now : Nat)
    (task : FinetuneTask)
    (hft : s.findTask tid = some task)
    (huser : task.user_id = u)
    (hstat : task.status = .running)
    (hjob : task.job_id = some j)
    (hrnd : s.running_tasks.Nodup) :
    (cancel_task s u tid (.ok true) now = .ok (true,
      { s with
        all_tasks := updateTask s.all_tasks tid (markCancelled now)
        running_tasks := s.running_tasks.erase tid
        user_task_counts := bumpCount s.user_task_counts u (-1) }) ∧
      ((updateTask s.all_tasks tid (markCancelled now)).find?
        (fun t => t.task_id = tid)).map (fun t => t.status) = some .cancelled ∧
      tid ∉ s.running_tasks.erase tid ∧
      bumpCount s.user_task_counts u (-1) u = s.user_task_counts u - 1) ∧
    cancel_task s u tid (.ok false) now = .ok (false, s) := by
  have hpq : ¬ (task.status = TaskStatus.pending ∨ task.status = TaskStatus.queued) := by
    rw [hstat]
    intro hc
    rcases hc with hc | hc <;> exact TaskStatus.noConfusion hc
  have hrun : task.status = TaskStatus.running ∧ task.job_id.isSome = true := by
    rw [hstat, hjob]
    exact ⟨rfl, rfl⟩
  have hune : ¬ task.user_id ≠ u := fun hh => hh huser
  refine ⟨⟨?_, ?_, ?_, ?_⟩, ?_⟩
  · unfold cancel_task
    simp only [hft, if_neg hune, if_neg hpq, if_pos hrun]
  · rw [find?_updateTask_self _ _ _ _ (markCancelled_task_id now) hft]
    rfl
  · exact hrnd.not_mem_erase
  · show (if u = u then s.user_task_counts u + (-1) else s.user_task_counts u) =
      s.user_task_counts u - 1
    rw [if_pos rfl]
    omega
  · unfold cancel_task
    simp only [hft, if_neg hune, if_neg hpq, if_pos hrun]

/-- Witness for C5: both stop outcomes evaluated on a concrete manager state
holding one running task of user 0. -/
theorem cancel_running_iff_stop_success_witness :
    (cancel_task wRunState 0 0 (.ok true) 9 = .ok (true,
      { wRunState with
        all_tasks := updateTask wRunState.all_tasks 0 (markCancelled 9)
        running_tasks := wRunState.running_tasks.erase 0
        user_task_counts := bumpCount wRunState.user_task_counts 0 (-1) }) ∧
      ((updateTask wRunState.all_tasks 0 (markCancelled 9)).find?
        (fun t => t.task_id = 0)).map (fun t => t.status) = some .cancelled ∧
      0 ∉ wRunState.running_tasks.erase 0 ∧
      bumpCount wRunState.user_task_counts 0 (-1) 0 =
        wRunState.user_task_counts 0 - 1) ∧
    cancel_task wRunState 0 0 (.ok false) 9 = .ok (false, wRunState) :=
  cancel_running_iff_stop_success wRunState 0 0 42 9 runningTask rfl rfl rfl rfl
    (by decide)

/-- C6 counterexample: with a Running task and a backend stop call that
raises, `cancel_task` does not propagate the error to the caller — it
returns `False` with the state unchanged instead of raising. -/
theorem cancel_running_stop_error_swallowed :
    cancel_task wRunState 0 0 (.error "backend down") 9 = .ok (false, wRunState) ∧
    ∀ e : String, cancel_task wRunState 0 0 (.error "backend down") 9 ≠ .error e := by
  constructor
  · rfl
  · intro e hcontra
    rw [show cancel_task wRunState 0 0 (.error "backend down") 9 =
      .ok (false, wRunState) from rfl] at hcontra
    exact Except.noConfusion hcontra

/-- C6 amended: when the backend stop call raises during a `cancel_task` on a
Running task, the error is caught inside `cancel_task` (and logged); the call
returns failure (`False`) to the caller with the state unchanged — the task
remains Running — instead of propagating the error. -/
theorem cancel_running_stop_error_contained (s : ManagerState) (u tid : Nat)
    (task : FinetuneTask) (e : String) (now : Nat)
    (hft : s.findTask tid = some task)
    (huser : task.user_id = u)
    (hstat : task.status = .running)
    (hjob : task.job_id.isSome = true) :
    cancel_task s u tid (.error e) now = .ok (false, s) := by
  have hpq : ¬ (task.status = TaskStatus.pending ∨ task.status = TaskStatus.queued) := by
    rw [hstat]
    intro hc
    rcases hc with hc | hc <;> exact TaskStatus.noConfusion hc
  have hrun : task.status = TaskStatus.running ∧ task.job_id.isSome = true :=
    ⟨hstat, hjob⟩
  have hune : ¬ task.user_id ≠ u := fun hh => hh huser
  unfold cancel_task
  simp only [hft, if_neg hune, if_neg hpq, if_pos hrun]

/-- Witness for C6 amended: the contained-error behaviour evaluated on a
concrete manager state holding one running task. -/
theorem cancel_running_stop_error_contained_witness :
    cancel_task wRunState 0 0 (.error "backend down") 9 = .ok (false, wRunState) :=
  cancel_running_stop_error_contained wRunState 0 0 runningTask "backend down" 9
    rfl rfl rfl rfl

/-- C7: when `_start_task`'s backend start call fails, the dequeued task goes
directly to Failed with the adapter's error recorded as `error_message` and
`finished_at` stamped, the owner's counter is decremented immediately, and
the task is never added to the running set (the running set is unchanged). -/
theorem start_failure_direct_to_failed (s : ManagerState) (task : FinetuneTask)
    (e : String) (now : Nat)
    (hft : s.findTask task.task_id = some task) :
    (((start_task s task (.error e) now).findTask task.task_id).map
      (fun t => (t.status, t.error_message, t.finished_at)) =
      some (.failed, some e, some now)) ∧
    (start_task s task (.error e) now).running_tasks = s.running_tasks ∧
    (task.task_id ∉ s.running_tasks →
      task.task_id ∉ (start_task s task (.error e) now).running_tasks) ∧
    (start_task s task (.error e) now).user_task_counts task.user_id =
      s.user_task_counts task.user_id - 1 := by
  refine ⟨?_, rfl, fun hnot => hnot, ?_⟩
  · show ((updateTask s.all_tasks task.task_id (markFailed e now)).find?
      (fun t => t.task_id = task.task_id)).map
      (fun t => (t.status, t.error_message, t.finished_at)) = _
    rw [find?_updateTask_self _ _ _ _ (markFailed_task_id e now) hft]
    rfl
  · show (if task.user_id = task.user_id
        then s.user_task_counts task.user_id + (-1)
        else s.user_task_counts task.user_id) =
      s.user_task_counts task.user_id - 1
    rw [if_pos rfl]
    omega

/-- Witness for C7: the failed-start outcome evaluated on the concrete state
holding one pending task of user 0. -/
theorem start_failure_direct_to_failed_witness :
    (((start_task wSubmitState pendingTask (.error "no quota") 1).findTask
      pendingTask.task_id).map
      (fun t => (t.status, t.error_message, t.finished_at)) =
      some (.failed, some "no quota", some 1)) ∧
    (start_task wSubmitState pendingTask (.error "no quota") 1).running_tasks =
      wSubmitState.running_tasks ∧
    (pendingTask.task_id ∉ wSubmitState.running_tasks →
      pendingTask.task_id ∉
        (start_task wSubmitState pendingTask (.error "no quota") 1).running_tasks) ∧
    (start_task wSubmitState pendingTask (.error "no quota") 1).user_task_counts
      pendingTask.user_id =
      wSubmitState.user_task_counts pendingTask.user_id - 1 :=
  start_failure_direct_to_failed wSubmitState pendingTask "no quota" 1 rfl

/-- C9: `submit_task` is an atomic admission gate.  When the user's counter
is at or above the per-user limit it raises a quota error and the state is
untouched (the method mutates nothing before raising — no task record, no
queue entry, no counter change); when the counter is below the limit it
returns the fresh task id of a newly created Pending task that has been
recorded, enqueued and counted, all in the same locked section. -/
theorem submit_task_admission (s : ManagerState) (u p tid now : Nat)
    (hfresh : s.findTask tid = none) :
    ((s.max_tasks_per_user : Int) ≤ s.user_task_counts u →
      submit_task s u p tid now = .error "user task count exceeds limit") ∧
    (s.user_task_counts u < (s.max_tasks_per_user : Int) →
      ∃ s', submit_task s u p tid now = .ok (tid, s') ∧
        s'.findTask tid = some (newTask u p tid now) ∧
        tid ∈ s'.task_queue ∧
        s'.user_task_counts u = s.user_task_counts u + 1 ∧
        nonTerminalCount s' u = nonTerminalCount s u + 1) := by
  constructor
  · intro hge
    unfold submit_task
    rw [if_pos hge]
  · intro hlt
    unfold submit_task
    rw [if_neg (not_le.mpr hlt)]
    refine ⟨_, rfl, ?_, ?_, ?_, ?_⟩
    · show ((s.all_tasks ++ [newTask u p tid now]).find?
        (fun t => t.task_id = tid)) = some (newTask u p tid now)
      rw [find?_append_none _ _ _ hfresh]
      exact List.find?_cons_of_pos _ (by simp [newTask])
    · exact List.mem_append.mpr (Or.inr (List.mem_singleton_self tid))
    · show (if u = u then s.user_task_counts u + 1 else s.user_task_counts u) = _
      rw [if_pos rfl]
    · simp [nonTerminalCount, List.filter_append, TaskStatus.isTerminal]

/-- Witness for C9: both admission outcomes, at a state where user 0 sits at
the limit and at a fresh manager. -/
theorem submit_task_admission_witness :
    submit_task atQuotaState 0 7 5 0 = .error "user task count exceeds limit" ∧
    (∃ s', submit_task (initState 5 3) 0 7 0 0 = .ok (0, s') ∧
      s'.findTask 0 = some (newTask 0 7 0 0) ∧
      0 ∈ s'.task_queue ∧
      s'.user_task_counts 0 = (initState 5 3).user_task_counts 0 + 1 ∧
      nonTerminalCount s' 0 = nonTerminalCount (initState 5 3) 0 + 1) :=
  ⟨(submit_task_admission atQuotaState 0 7 5 0 rfl).1 (by decide),
   (submit_task_admission (initState 5 3) 0 7 0 0 rfl).2 (by decide)⟩

/-- C10: `get_task_status` performs no mutation (in the embedding it returns
no state because the source method only reads), and for a task in a terminal
status the owner's query returns exactly the stored record fields with no
backend call (`job_status` enrichment absent, backend flag false); the result
does not depend on the backend oracle, so repeated calls return the same
status, `created_at`, `started_at`, `finished_at` and `error_message`. -/
theorem get_status_terminal_stable (s : ManagerState) (u tid : Nat)
    (task : FinetuneTask) (q1 q2 : Except String JobStatus)
    (hft : s.findTask tid = some task)
    (huser : task.user_id = u)
    (hterm : task.status.isTerminal = true) :
    get_task_status s u tid q1 =
      .ok ({ task_id := task.task_id
             status := task.status
             created_at := task.created_at
             started_at := task.started_at
             finished_at := task.finished_at
             error_message := task.error_message
             job_status := none }, false) ∧
    get_task_status s u tid q1 = get_task_status s u tid q2 := by
  have hnrun : ¬ (task.status = TaskStatus.running ∧ task.job_id.isSome = true) := by
    intro hc
    rw [hc.1] at hterm
    simp [TaskStatus.isTerminal] at hterm
  have hune : ¬ task.user_id ≠ u := fun hh => hh huser
  have heq : ∀ q : Except String JobStatus,
      get_task_status s u tid q =
      .ok ({ task_id := task.task_id
             status := task.status
             created_at := task.created_at
             started_at := task.started_at
             finished_at := task.finished_at
             error_message := task.error_message
             job_status := none }, false) := by
    intro q
    unfold get_task_status
    simp only [hft, if_neg hune, if_neg hnrun]
  exact ⟨heq q1, (heq q1).trans (heq q2).symm⟩

/-- Witness for C10: the stable snapshot of a concrete Completed task, under
two different backend oracles. -/
theorem get_status_terminal_stable_witness :
    get_task_status wDoneState 0 1 (.error "backend down") =
      .ok ({ task_id := doneTask.task_id
             status := doneTask.status
             created_at := doneTask.created_at
             started_at := doneTask.started_at
             finished_at := doneTask.finished_at
             error_message := doneTask.error_message
             job_status := none }, false) ∧
    get_task_status wDoneState 0 1 (.error "backend down") =
      get_task_status wDoneState 0 1 (.ok { succeeded := true, failed := false }) :=
  get_status_terminal_stable wDoneState 0 1 doneTask (.error "backend down")
    (.ok { succeeded := true, failed := false }) rfl rfl rfl

/-- C1 (refuting evaluation): on a fresh manager with limits 5 and 3, user 0
submits one task and then cancels it while it is still Pending.  The cancel
succeeds and the task reaches the terminal status Cancelled, yet the user's
counter still reads 1 while the user has 0 tasks in {Pending, Queued,
Running}: the Pending/Queued branch of `cancel_task` never decrements
`user_task_counts`, so the claimed counter invariant fails at this reachable
state. -/
theorem cancel_pending_counter_leak :
    leakRun.toOption.map
      (fun pr => (pr.1, pr.2.user_task_counts 0, nonTerminalCount pr.2 0)) =
    some (true, 1, 0) := by decide

/-- C2 (refuting evaluation): cancelling the Pending task removes it from the
wait queue, marks it Cancelled and returns True with no backend interaction,
but the user's quota slot is not released — the per-user counter still reads
1 after the cancel instead of 0. -/
theorem cancel_pending_no_quota_release :
    leakRun.toOption.map
      (fun pr => (pr.1, pr.2.task_queue,
        (pr.2.findTask 0).map (fun t => t.status), pr.2.user_task_counts 0)) =
    some (true, [], some .cancelled, 1) := by decide
